import Mathlib

/-!
Verification of the inference-config filter in `src/detect/src/main.rs`
(`create_filtered_config`).  The Rust function reads a base configuration
file, drops every `[class-attrs-all]` section from it (line-oriented scan
with a single boolean flag), appends a per-class section for the target
class id followed by a restrictive all-classes section, and writes the
result to the fixed path `/tmp/config_infer_filtered.txt`.

The embedding below mirrors the Rust line by line:
* `linesData` / `rustLines` model `str::lines()` (split at `'\n'`, a single
  `'\r'` immediately before the `'\n'` is also removed; a final fragment
  without a newline is yielded as-is, and a trailing `'\r'` without a
  following `'\n'` is kept).
* `rustTrim` models `str::trim()` (here over the ASCII whitespace classified
  by `Char.isWhitespace`, which covers every character appearing in these
  configuration files).
* `rustStartsWith` models `str::starts_with`.
* `filterLines` is the scan loop of `create_filtered_config` with its
  `in_class_attrs` flag.
* `new_config` is the full assembled output buffer (copied body plus the
  two appended sections).
* `create_filtered_config` models the effectful wrapper: the fallible read,
  the truncating `File::create`, and the possibly-partial `write_all` are
  made explicit parameters, and the content of the fixed output path is
  threaded as state.
-/

/-- One cons step used by `linesData`: prepend a character to the first
line of an already-split tail (creating that line when the tail is empty). -/
def consCell (c : Char) : List (List Char) → List (List Char)
  | [] => [[c]]
  | p :: ps => (c :: p) :: ps

/-- Character-level model of Rust `str::lines()`: split at `'\n'`,
dropping the `'\n'` and a single `'\r'` directly in front of it; a final
fragment with no terminating `'\n'` is kept verbatim. -/
def linesData : List Char → List (List Char)
  | [] => []
  | '\n' :: cs => [] :: linesData cs
  | '\r' :: '\n' :: cs => [] :: linesData cs
  | c :: cs => consCell c (linesData cs)

/-- Model of Rust `str::lines()` on `String`. -/
def rustLines (s : String) : List String :=
  (linesData s.data).map String.mk

/-- Remove one trailing `'\r'` from a character list, if present (the
carriage-return half of a CRLF line ending). -/
def stripCR (l : List Char) : List Char :=
  if l.getLast? = some '\r' then l.dropLast else l

/-- Model of Rust `str::trim()`: drop whitespace from both ends. -/
def rustTrim (s : String) : String :=
  String.mk (((s.data.dropWhile Char.isWhitespace).reverse.dropWhile
    Char.isWhitespace).reverse)

/-- Model of Rust `str::starts_with` for string patterns. -/
def rustStartsWith (s p : String) : Bool :=
  p.data.isPrefixOf s.data

/-- The scan loop of `create_filtered_config`: the `Bool` argument is the
`in_class_attrs` flag.  A line whose trimmed form starts with
`"[class-attrs-all]"` sets the flag and is skipped (`continue`); otherwise,
if the flag is set and the trimmed line starts with `"["`, the flag is
cleared; finally the line is copied exactly when the flag is now clear. -/
def filterLines : Bool → List String → List String
  | _, [] => []
  | in_class_attrs, line :: rest =>
    if rustStartsWith (rustTrim line) "[class-attrs-all]" then
      filterLines true rest
    else
      let in2 := in_class_attrs && !(rustStartsWith (rustTrim line) "[")
      if in2 then filterLines in2 rest
      else line :: filterLines in2 rest

/-- The copied part of the output buffer: each kept line followed by a
single `'\n'` (`new_config.push_str(line); new_config.push('\n')`). -/
def buildBody (ls : List String) : String :=
  ls.foldl (fun acc l => acc ++ l ++ "\n") ""

/-- The text appended after the copied body: a blank separator, the
per-class section for the target id with the permissive threshold, a blank
separator, and the restrictive all-classes section. -/
def appendedSuffix (target_class_id : Int) : String :=
  "\n[class-attrs-" ++ toString target_class_id ++ "]\n"
    ++ "pre-cluster-threshold=0.25\n"
    ++ "\n[class-attrs-all]\n"
    ++ "pre-cluster-threshold=1.0\n"

/-- The header line of the appended per-class section. -/
def classHeader (target_class_id : Int) : String :=
  "[class-attrs-" ++ toString target_class_id ++ "]"

/-- The full assembled output buffer of `create_filtered_config` as a
function of the base file's content and the target class id. -/
def new_config (config_content : String) (target_class_id : Int) : String :=
  buildBody (filterLines false (rustLines config_content))
    ++ appendedSuffix target_class_id

/-- The fixed output path (`temp_config_path` in the source). -/
def temp_config_path : String := "/tmp/config_infer_filtered.txt"

/-- String form of `stripCR`. -/
def stripCRstr (s : String) : String := String.mk (stripCR s.data)

example : rustLines "a\nb" = ["a", "b"] := by decide
example : rustLines "a\r\nb\n" = ["a", "b"] := by decide
example : rustLines "" = [] := by decide
example : rustLines "a\r" = ["a\r"] := by decide
example : rustLines "ab\r\r\n" = ["ab\r"] := by decide
example : filterLines false ["[class-attrs-all]", "t=1", "[x]", "y=2"]
    = ["[x]", "y=2"] := by decide
example : rustTrim "  [class-attrs-all]  " = "[class-attrs-all]" := by decide

/-! ### Basic lemmas about the line splitter -/

theorem stripCR_nil : stripCR [] = [] := by decide

theorem stripCR_cons (c : Char) (q : List Char) (hq : q ≠ []) :
    stripCR (c :: q) = c :: stripCR q := by
  match q, hq with
  | d :: q', _ =>
    simp only [stripCR, List.getLast?_cons_cons, List.dropLast_cons₂]
    split <;> rfl

theorem linesData_newline (cs : List Char) :
    linesData ('\n' :: cs) = [] :: linesData cs := rfl

theorem linesData_crlf (cs : List Char) :
    linesData ('\r' :: '\n' :: cs) = [] :: linesData cs := rfl

theorem linesData_other (c : Char) (cs : List Char) (h1 : c ≠ '\n')
    (h2 : c ≠ '\r') : linesData (c :: cs) = consCell c (linesData cs) := by
  cases cs <;> simp [linesData, h1, h2]

theorem linesData_cr_other (c : Char) (cs : List Char) (h1 : c ≠ '\n') :
    linesData ('\r' :: c :: cs) = consCell '\r' (linesData (c :: cs)) := by
  simp [linesData, h1]

theorem stripCR_single_cr : stripCR ['\r'] = [] := by decide

theorem stripCR_single (c : Char) (h : c ≠ '\r') : stripCR [c] = [c] := by
  rw [stripCR, if_neg]
  simp [h]

theorem linesData_append_newline (xs : List Char) (r : List Char)
    (h : '\n' ∉ xs) : linesData (xs ++ '\n' :: r) = stripCR xs :: linesData r := by
  induction xs with
  | nil => rw [List.nil_append, linesData_newline, stripCR_nil]
  | cons c q ih =>
    have hc : c ≠ '\n' := fun he => h (he ▸ List.mem_cons_self c q)
    have hq : '\n' ∉ q := fun hm => h (List.mem_cons_of_mem c hm)
    rw [List.cons_append]
    by_cases hcr : c = '\r'
    · subst hcr
      cases q with
      | nil => rw [List.nil_append, linesData_crlf, stripCR_single_cr]
      | cons d q' =>
        have hd : d ≠ '\n' := fun he => hq (he ▸ List.mem_cons_self d q')
        rw [List.cons_append, linesData_cr_other d _ hd, ← List.cons_append,
          ih hq, stripCR_cons '\r' (d :: q') (by simp)]
        rfl
    · rw [linesData_other c _ hc hcr, ih hq]
      cases q with
      | nil => rw [stripCR_nil, stripCR_single c hcr]; rfl
      | cons d q' => rw [stripCR_cons c (d :: q') (by simp)]; rfl

theorem linesData_no_newline (xs : List Char) (h : '\n' ∉ xs) (hne : xs ≠ []) :
    linesData xs = [xs] := by
  induction xs with
  | nil => exact absurd rfl hne
  | cons c q ih =>
    have hc : c ≠ '\n' := fun he => h (he ▸ List.mem_cons_self c q)
    have hq : '\n' ∉ q := fun hm => h (List.mem_cons_of_mem c hm)
    cases q with
    | nil =>
      by_cases hcr : c = '\r'
      · subst hcr; decide
      · rw [linesData_other c [] hc hcr]; rfl
    | cons d q' =>
      have hd : d ≠ '\n' := fun he => hq (he ▸ List.mem_cons_self d q')
      have hrec := ih hq (by simp)
      by_cases hcr : c = '\r'
      · subst hcr; rw [linesData_cr_other d q' hd, hrec]; rfl
      · rw [linesData_other c _ hc hcr, hrec]; rfl

theorem linesData_cons_eq_consCell (c : Char) (cs : List Char) (hc : c ≠ '\n')
    (hcr : c = '\r' → cs.head? ≠ some '\n') :
    linesData (c :: cs) = consCell c (linesData cs) := by
  by_cases h : c = '\r'
  · subst h
    cases cs with
    | nil => rfl
    | cons d cs' =>
      have hd : d ≠ '\n' := by
        intro he
        exact (hcr rfl) (by rw [he]; rfl)
      exact linesData_cr_other d cs' hd
  · exact linesData_other c cs hc h

theorem mem_linesData_no_newline (dl : List Char) :
    ∀ p ∈ linesData dl, '\n' ∉ p := by
  induction dl using linesData.induct with
  | case1 => intro p hp; simp [linesData] at hp
  | case2 cs ih =>
    intro p hp
    rw [linesData_newline] at hp
    rcases List.mem_cons.mp hp with h | h
    · subst h; simp
    · exact ih p h
  | case3 cs ih =>
    intro p hp
    rw [linesData_crlf] at hp
    rcases List.mem_cons.mp hp with h | h
    · subst h; simp
    · exact ih p h
  | case4 c cs h1 h2 ih =>
    intro p hp
    have hc : c ≠ '\n' := fun he => h1 he
    have hcr : c = '\r' → cs.head? ≠ some '\n' := by
      intro he hh
      cases cs with
      | nil => simp at hh
      | cons d cs' =>
        simp at hh
        exact h2 cs' he (by rw [hh])
    rw [linesData_cons_eq_consCell c cs hc hcr] at hp
    cases hls : linesData cs with
    | nil =>
      rw [hls] at hp
      simp only [consCell, List.mem_singleton] at hp
      subst hp
      intro hm
      rw [List.mem_singleton] at hm
      exact hc hm.symm
    | cons p0 ps =>
      rw [hls] at hp
      simp only [consCell, List.mem_cons] at hp
      rcases hp with h | h
      · subst h
        intro hm
        rcases List.mem_cons.mp hm with h' | h'
        · exact hc h'.symm
        · exact (ih p0 (hls ▸ List.mem_cons_self p0 ps)) h'
      · exact ih p (hls ▸ List.mem_cons_of_mem p0 h)

/-! ### The assembled buffer at the character level -/

theorem buildBody_foldl_data (ls : List String) : ∀ (a : String),
    (ls.foldl (fun acc l => acc ++ l ++ "\n") a).data
      = a.data ++ (ls.map (fun l => l.data ++ ['\n'])).flatten := by
  induction ls with
  | nil => intro a; simp
  | cons l ls ih =>
    intro a
    rw [List.foldl_cons, ih, List.map_cons, List.flatten_cons]
    show (a ++ l ++ "\n").data ++ _ = _
    rw [String.data_append, String.data_append]
    show a.data ++ l.data ++ ['\n'] ++ _ = _
    simp [List.append_assoc]

theorem buildBody_data (ls : List String) :
    (buildBody ls).data = (ls.map (fun l => l.data ++ ['\n'])).flatten := by
  rw [buildBody, buildBody_foldl_data]
  rfl

theorem linesData_body (ls : List String) (r : List Char)
    (h : ∀ l ∈ ls, '\n' ∉ l.data) :
    linesData ((ls.map (fun l => l.data ++ ['\n'])).flatten ++ r)
      = ls.map (fun l => stripCR l.data) ++ linesData r := by
  induction ls with
  | nil => simp
  | cons l ls ih =>
    have hl : '\n' ∉ l.data := h l (List.mem_cons_self l ls)
    have hrest : ∀ x ∈ ls, '\n' ∉ x.data :=
      fun x hx => h x (List.mem_cons_of_mem l hx)
    rw [List.map_cons, List.flatten_cons, List.append_assoc, List.append_assoc,
      List.singleton_append, linesData_append_newline _ _ hl, ih hrest,
      List.map_cons]
    rfl

/-- The bridge between the assembled buffer and its line decomposition:
appending any string `r` after the copied body splits into the kept lines
(with a trailing carriage return, when one survived, removed again by the
re-parse) followed by the lines of `r`. -/
theorem rustLines_buildBody_append (ls : List String) (r : String)
    (h : ∀ l ∈ ls, '\n' ∉ l.data) :
    rustLines (buildBody ls ++ r) = ls.map stripCRstr ++ rustLines r := by
  rw [rustLines, String.data_append, buildBody_data, linesData_body ls r.data h,
    List.map_append, List.map_map]
  rfl

/-! ### Lemmas about the scan loop -/

theorem trigger_open (l : String)
    (h : rustStartsWith (rustTrim l) "[class-attrs-all]" = true) :
    rustStartsWith (rustTrim l) "[" = true := by
  rw [rustStartsWith, List.isPrefixOf_iff_prefix] at h ⊢
  exact List.IsPrefix.trans ⟨"class-attrs-all]".data, rfl⟩ h

theorem filterLines_cons_trigger (b : Bool) (l : String) (rest : List String)
    (h : rustStartsWith (rustTrim l) "[class-attrs-all]" = true) :
    filterLines b (l :: rest) = filterLines true rest := by
  simp [filterLines, h]

theorem filterLines_cons_keep (l : String) (rest : List String)
    (h : rustStartsWith (rustTrim l) "[class-attrs-all]" = false) :
    filterLines false (l :: rest) = l :: filterLines false rest := by
  simp [filterLines, h]

theorem filterLines_cons_boundary (l : String) (rest : List String)
    (h : rustStartsWith (rustTrim l) "[class-attrs-all]" = false)
    (ho : rustStartsWith (rustTrim l) "[" = true) :
    filterLines true (l :: rest) = l :: filterLines false rest := by
  simp [filterLines, h, ho]

theorem filterLines_cons_drop (l : String) (rest : List String)
    (h : rustStartsWith (rustTrim l) "[class-attrs-all]" = false)
    (ho : rustStartsWith (rustTrim l) "[" = false) :
    filterLines true (l :: rest) = filterLines true rest := by
  simp [filterLines, h, ho]

theorem filterLines_pass (xs ys : List String)
    (h : ∀ l ∈ xs, rustStartsWith (rustTrim l) "[class-attrs-all]" = false) :
    filterLines false (xs ++ ys) = xs ++ filterLines false ys := by
  induction xs with
  | nil => rfl
  | cons l xs ih =>
    rw [List.cons_append, filterLines_cons_keep l _ (h l (List.mem_cons_self l xs)),
      ih (fun x hx => h x (List.mem_cons_of_mem l hx)), List.cons_append]

theorem filterLines_id (xs : List String)
    (h : ∀ l ∈ xs, rustStartsWith (rustTrim l) "[class-attrs-all]" = false) :
    filterLines false xs = xs := by
  induction xs with
  | nil => rfl
  | cons l xs ih =>
    rw [filterLines_cons_keep l _ (h l (List.mem_cons_self l xs)),
      ih (fun x hx => h x (List.mem_cons_of_mem l hx))]

theorem filterLines_skip (xs ys : List String)
    (h : ∀ l ∈ xs, rustStartsWith (rustTrim l) "[" = false) :
    filterLines true (xs ++ ys) = filterLines true ys := by
  induction xs with
  | nil => rfl
  | cons l xs ih =>
    have ho := h l (List.mem_cons_self l xs)
    cases hb : rustStartsWith (rustTrim l) "[class-attrs-all]" with
    | false =>
      rw [List.cons_append, filterLines_cons_drop l _ hb ho,
        ih (fun x hx => h x (List.mem_cons_of_mem l hx))]
    | true =>
      have h2 := trigger_open l hb
      rw [ho] at h2
      exact absurd h2 (by decide)

theorem mem_filterLines (ls : List String) : ∀ (b : Bool), ∀ l ∈ filterLines b ls,
    l ∈ ls ∧ rustStartsWith (rustTrim l) "[class-attrs-all]" = false := by
  induction ls with
  | nil => intro b l hl; simp [filterLines] at hl
  | cons x xs ih =>
    intro b l hl
    cases hb : rustStartsWith (rustTrim x) "[class-attrs-all]" with
    | true =>
      rw [filterLines_cons_trigger b x xs hb] at hl
      have h2 := ih true l hl
      exact ⟨List.mem_cons_of_mem x h2.1, h2.2⟩
    | false =>
      cases b with
      | false =>
        rw [filterLines_cons_keep x xs hb] at hl
        rcases List.mem_cons.mp hl with h | h
        · exact ⟨List.mem_cons.mpr (Or.inl h), by rw [h]; exact hb⟩
        · have h2 := ih false l h
          exact ⟨List.mem_cons_of_mem x h2.1, h2.2⟩
      | true =>
        cases ho : rustStartsWith (rustTrim x) "[" with
        | true =>
          rw [filterLines_cons_boundary x xs hb ho] at hl
          rcases List.mem_cons.mp hl with h | h
          · exact ⟨List.mem_cons.mpr (Or.inl h), by rw [h]; exact hb⟩
          · have h2 := ih false l h
            exact ⟨List.mem_cons_of_mem x h2.1, h2.2⟩
        | false =>
          rw [filterLines_cons_drop x xs hb ho] at hl
          have h2 := ih true l hl
          exact ⟨List.mem_cons_of_mem x h2.1, h2.2⟩

/-! ### Trimming commutes with removing a trailing carriage return -/

theorem trimData_concat_cr (q : List Char) :
    ((q ++ ['\r']).dropWhile Char.isWhitespace).reverse.dropWhile Char.isWhitespace
      = (q.dropWhile Char.isWhitespace).reverse.dropWhile Char.isWhitespace := by
  rw [List.dropWhile_append]
  by_cases he : (q.dropWhile Char.isWhitespace).isEmpty = true
  · rw [if_pos he]
    rw [List.isEmpty_iff] at he
    rw [he]
    decide
  · rw [if_neg he, List.reverse_append]
    show List.dropWhile Char.isWhitespace
      ('\r' :: (q.dropWhile Char.isWhitespace).reverse) = _
    rw [List.dropWhile_cons, if_pos (by decide)]

theorem rustTrim_stripCRstr (s : String) : rustTrim (stripCRstr s) = rustTrim s := by
  by_cases h : s.data.getLast? = some '\r'
  · have hne : s.data ≠ [] := by
      intro he
      rw [he] at h
      simp at h
    have hlast : s.data.getLast hne = '\r' := by
      have h2 := List.getLast?_eq_getLast s.data hne
      rw [h2] at h
      exact Option.some.inj h
    have hq : s.data = s.data.dropLast ++ ['\r'] := by
      have h3 := (List.dropLast_append_getLast hne).symm
      rw [hlast] at h3
      exact h3
    apply String.ext
    show (((stripCR s.data).dropWhile Char.isWhitespace).reverse.dropWhile
      Char.isWhitespace).reverse = ((s.data.dropWhile
      Char.isWhitespace).reverse.dropWhile Char.isWhitespace).reverse
    rw [stripCR, if_pos h]
    conv_rhs => rw [hq]
    rw [trimData_concat_cr]
  · have h2 : stripCRstr s = s := by
      apply String.ext
      show stripCR s.data = s.data
      rw [stripCR, if_neg h]
    rw [h2]

/-! ### Characters of the decimal rendering of the target class id -/

theorem toDigitsCore_mem (fuel : Nat) : ∀ (n : Nat) (ds : List Char),
    ∀ c ∈ Nat.toDigitsCore 10 fuel n ds, c ∈ ds ∨ c.isDigit = true := by
  induction fuel with
  | zero => intro n ds c hc; exact Or.inl hc
  | succ fuel ih =>
    intro n ds c hc
    have hdig : (Nat.digitChar (n % 10)).isDigit = true := by
      have h10 : n % 10 < 10 := Nat.mod_lt _ (by decide)
      set m := n % 10 with hm
      interval_cases m <;> decide
    rw [Nat.toDigitsCore] at hc
    by_cases hz : n / 10 = 0
    · rw [if_pos hz] at hc
      rcases List.mem_cons.mp hc with h | h
      · exact Or.inr (h ▸ hdig)
      · exact Or.inl h
    · rw [if_neg hz] at hc
      rcases ih (n / 10) ((n % 10).digitChar :: ds) c hc with h | h
      · rcases List.mem_cons.mp h with h2 | h2
        · exact Or.inr (h2 ▸ hdig)
        · exact Or.inl h2
      · exact Or.inr h

theorem nat_repr_digits (n : Nat) : ∀ c ∈ (Nat.repr n).data, c.isDigit = true := by
  intro c hc
  have h2 : (Nat.repr n).data = Nat.toDigitsCore 10 (n + 1) n [] := rfl
  rw [h2] at hc
  rcases toDigitsCore_mem (n + 1) n [] c hc with h | h
  · simp at h
  · exact h

theorem int_toString_chars (n : Int) :
    ∀ c ∈ (toString n).data, c = '-' ∨ c.isDigit = true := by
  cases n with
  | ofNat m =>
    intro c hc
    have h2 : (toString (Int.ofNat m)).data = (Nat.repr m).data := rfl
    rw [h2] at hc
    exact Or.inr (nat_repr_digits m c hc)
  | negSucc m =>
    intro c hc
    have h2 : (toString (Int.negSucc m)).data = '-' :: (Nat.repr (m + 1)).data := rfl
    rw [h2] at hc
    rcases List.mem_cons.mp hc with h | h
    · exact Or.inl h
    · exact Or.inr (nat_repr_digits (m + 1) c h)

theorem int_toString_no_newline (n : Int) : '\n' ∉ (toString n).data := by
  intro hm
  rcases int_toString_chars n '\n' hm with h | h
  · exact absurd h (by decide)
  · exact absurd h (by decide)

theorem int_toString_no_cr (n : Int) : '\r' ∉ (toString n).data := by
  intro hm
  rcases int_toString_chars n '\r' hm with h | h
  · exact absurd h (by decide)
  · exact absurd h (by decide)

/-! ### The appended per-class header -/

theorem classHeader_data (n : Int) :
    (classHeader n).data = "[class-attrs-".data ++ ((toString n).data ++ [']']) := by
  rw [classHeader, String.data_append, String.data_append, List.append_assoc]

theorem classHeader_no_newline (n : Int) : '\n' ∉ (classHeader n).data := by
  rw [classHeader_data]
  intro hm
  rcases List.mem_append.mp hm with h | h
  · exact absurd h (by decide)
  · rcases List.mem_append.mp h with h2 | h2
    · exact int_toString_no_newline n h2
    · exact absurd h2 (by decide)

theorem classHeader_no_cr (n : Int) : '\r' ∉ (classHeader n).data := by
  rw [classHeader_data]
  intro hm
  rcases List.mem_append.mp hm with h | h
  · exact absurd h (by decide)
  · rcases List.mem_append.mp h with h2 | h2
    · exact int_toString_no_cr n h2
    · exact absurd h2 (by decide)

theorem stripCR_classHeader (n : Int) :
    stripCR (classHeader n).data = (classHeader n).data := by
  rw [stripCR, if_neg]
  rw [classHeader_data, ← List.append_assoc, List.getLast?_concat]
  decide

theorem trimChars_of_ends (X : List Char) (c0 c1 : Char)
    (h0 : c0.isWhitespace = false) (h1 : c1.isWhitespace = false) :
    (((c0 :: (X ++ [c1])).dropWhile Char.isWhitespace).reverse.dropWhile
      Char.isWhitespace).reverse = c0 :: (X ++ [c1]) := by
  have e1 : (c0 :: (X ++ [c1])).dropWhile Char.isWhitespace = c0 :: (X ++ [c1]) := by
    rw [List.dropWhile_cons, h0]
    rfl
  have e2 : (c0 :: (X ++ [c1])).reverse = c1 :: (X.reverse ++ [c0]) := by
    rw [List.reverse_cons, List.reverse_append]
    rfl
  have e3 : (c1 :: (X.reverse ++ [c0])).dropWhile Char.isWhitespace
      = c1 :: (X.reverse ++ [c0]) := by
    rw [List.dropWhile_cons, h1]
    rfl
  rw [e1, e2, e3, ← e2, List.reverse_reverse]

theorem rustTrim_classHeader (n : Int) : rustTrim (classHeader n) = classHeader n := by
  apply String.ext
  show (((classHeader n).data.dropWhile Char.isWhitespace).reverse.dropWhile
    Char.isWhitespace).reverse = (classHeader n).data
  have hd : (classHeader n).data
      = '[' :: (("class-attrs-".data ++ (toString n).data) ++ [']']) := by
    rw [classHeader_data]
    rfl
  rw [hd, trimChars_of_ends _ _ _ (by decide) (by decide)]

theorem classHeader_tail_ne (n : Int) (u : List Char) :
    (toString n).data ++ [']'] ≠ 'a' :: u := by
  cases h : (toString n).data with
  | nil => simp
  | cons c t' =>
    intro he
    rw [List.cons_append] at he
    have hc : c = 'a' := (List.cons.injEq _ _ _ _ ▸ he : _ ∧ _).1
    rcases int_toString_chars n c (h ▸ List.mem_cons_self c t') with h' | h'
    · rw [hc] at h'; exact absurd h' (by decide)
    · rw [hc] at h'; exact absurd h' (by decide)

theorem classHeader_ne_all (n : Int) : classHeader n ≠ "[class-attrs-all]" := by
  intro he
  have hd := congrArg String.data he
  rw [classHeader_data] at hd
  have h3 : "[class-attrs-all]".data = "[class-attrs-".data ++ ('a' :: "ll]".data) := rfl
  rw [h3] at hd
  exact classHeader_tail_ne n _ (List.append_cancel_left hd)

theorem classHeader_not_trigger (n : Int) :
    rustStartsWith (rustTrim (classHeader n)) "[class-attrs-all]" = false := by
  rw [rustTrim_classHeader]
  cases hb : rustStartsWith (classHeader n) "[class-attrs-all]" with
  | false => rfl
  | true =>
    exfalso
    rw [rustStartsWith, List.isPrefixOf_iff_prefix] at hb
    rcases hb with ⟨u, hu⟩
    rw [classHeader_data] at hu
    have h3 : "[class-attrs-all]".data ++ u
        = "[class-attrs-".data ++ ('a' :: ("ll]".data ++ u)) := by
      rfl
    rw [h3] at hu
    exact classHeader_tail_ne n _ (List.append_cancel_left hu).symm

theorem classHeader_opens (n : Int) :
    rustStartsWith (rustTrim (classHeader n)) "[" = true := by
  rw [rustTrim_classHeader, rustStartsWith, List.isPrefixOf_iff_prefix]
  rw [classHeader_data]
  exact ⟨"class-attrs-".data ++ ((toString n).data ++ [']']), rfl⟩

/-! ### Line decomposition of the assembled output -/

theorem appendedSuffix_data (n : Int) :
    (appendedSuffix n).data
      = '\n' :: ((classHeader n).data ++ ('\n' :: ("pre-cluster-threshold=0.25".data
        ++ ('\n' :: ('\n' :: ("[class-attrs-all]".data
        ++ ('\n' :: ("pre-cluster-threshold=1.0".data ++ ['\n'])))))))) := by
  rw [appendedSuffix, classHeader]
  simp only [String.data_append, List.append_assoc]
  rfl

theorem rustLines_appendedSuffix (n : Int) :
    rustLines (appendedSuffix n)
      = ["", classHeader n, "pre-cluster-threshold=0.25", "",
         "[class-attrs-all]", "pre-cluster-threshold=1.0"] := by
  rw [rustLines, appendedSuffix_data, linesData_newline,
    linesData_append_newline _ _ (classHeader_no_newline n),
    linesData_append_newline _ _ (by decide), linesData_newline,
    linesData_append_newline _ _ (by decide),
    show ("pre-cluster-threshold=1.0".data ++ ['\n'])
      = "pre-cluster-threshold=1.0".data ++ '\n' :: ([] : List Char) from rfl,
    linesData_append_newline _ _ (by decide), stripCR_classHeader]
  rfl

theorem mem_rustLines_no_newline (s : String) : ∀ l ∈ rustLines s, '\n' ∉ l.data := by
  intro l hl
  rw [rustLines] at hl
  rcases List.mem_map.mp hl with ⟨p, hp, he⟩
  rw [← he]
  exact mem_linesData_no_newline s.data p hp

theorem kept_no_newline (c : String) :
    ∀ l ∈ filterLines false (rustLines c), '\n' ∉ l.data := by
  intro l hl
  exact mem_rustLines_no_newline c l (mem_filterLines (rustLines c) false l hl).1

/-- Master bridge: the lines of the assembled output are the kept input
lines (re-parsed, which trims a surviving trailing carriage return)
followed by the six fixed appended lines. -/
theorem rustLines_new_config (c : String) (n : Int) :
    rustLines (new_config c n)
      = (filterLines false (rustLines c)).map stripCRstr
        ++ ["", classHeader n, "pre-cluster-threshold=0.25", "",
            "[class-attrs-all]", "pre-cluster-threshold=1.0"] := by
  rw [new_config, rustLines_buildBody_append _ _ (kept_no_newline c),
    rustLines_appendedSuffix]

/-! ## The claims -/

/-- C1: for every configuration document in which no line is recognized as
an all-classes header, the output equals the input copied line by line in
order (each line rewritten with its single `'\n'` terminator) followed by
the two appended sections verbatim; no line is dropped or reordered. -/
theorem c1_pass_through (c : String) (id : Int)
    (h : ∀ l ∈ rustLines c, rustStartsWith (rustTrim l) "[class-attrs-all]" = false) :
    new_config c id = buildBody (rustLines c) ++ appendedSuffix id := by
  rw [new_config, filterLines_id _ h]

/-- Witness for C1 at a concrete two-line document with no all-classes
section and target class id 3. -/
theorem c1_pass_through_witness :
    (∀ l ∈ rustLines "[net]\nwidth=1\n",
      rustStartsWith (rustTrim l) "[class-attrs-all]" = false)
      ∧ new_config "[net]\nwidth=1\n" 3
        = buildBody (rustLines "[net]\nwidth=1\n") ++ appendedSuffix 3 :=
  ⟨by decide, c1_pass_through "[net]\nwidth=1\n" 3 (by decide)⟩

/-- C2: a document consisting of a region with no all-classes header, one
all-classes header line, its key=value lines (lines not opening a section),
and then either nothing or a region starting with a new section header and
containing no all-classes header, filters to exactly the surrounding
regions: the header and its key=value lines are gone, everything before
and after is kept unchanged and in order. -/
theorem c2_single_section_removal (c : String) (id : Int)
    (before sect after : List String) (hdr : String)
    (hsplit : rustLines c = before ++ hdr :: (sect ++ after))
    (hhdr : rustStartsWith (rustTrim hdr) "[class-attrs-all]" = true)
    (hbefore : ∀ l ∈ before, rustStartsWith (rustTrim l) "[class-attrs-all]" = false)
    (hsect : ∀ l ∈ sect, rustStartsWith (rustTrim l) "[" = false)
    (hafter : ∀ l ∈ after, rustStartsWith (rustTrim l) "[class-attrs-all]" = false)
    (hafterhead : after = []
      ∨ ∃ a as, after = a :: as ∧ rustStartsWith (rustTrim a) "[" = true) :
    new_config c id = buildBody (before ++ after) ++ appendedSuffix id := by
  rw [new_config, hsplit, filterLines_pass _ _ hbefore,
    filterLines_cons_trigger _ _ _ hhdr, filterLines_skip _ _ hsect]
  rcases hafterhead with h | ⟨a, as, he, ho⟩
  · subst h; rfl
  · subst he
    rw [filterLines_cons_boundary a as (hafter a (List.mem_cons_self a as)) ho,
      filterLines_id as (fun l hl => hafter l (List.mem_cons_of_mem a hl))]

/-- Witness for C2 at a concrete document with exactly one all-classes
section surrounded by kept lines, target class id 1. -/
theorem c2_single_section_removal_witness :
    new_config "x=0\n[class-attrs-all]\nt=0.3\n[next]\ny=2\n" 1
      = buildBody (["x=0"] ++ ["[next]", "y=2"]) ++ appendedSuffix 1 :=
  c2_single_section_removal "x=0\n[class-attrs-all]\nt=0.3\n[next]\ny=2\n" 1
    ["x=0"] ["t=0.3"] ["[next]", "y=2"] "[class-attrs-all]"
    (by decide) (by decide) (by decide) (by decide) (by decide)
    (Or.inr ⟨"[next]", ["y=2"], rfl, by decide⟩)

/-- C3 counterexample: the line `"[class-attrs-all]"` occurring while the
scan is inside an all-classes section opens a new section (its trimmed form
begins with `'['`), yet it is dropped, not copied: the claim that every
such boundary line is copied is false. -/
theorem c3_counterexample :
    rustStartsWith (rustTrim "[class-attrs-all]") "[" = true
      ∧ filterLines true ["[class-attrs-all]", "b=2"] = [] :=
  ⟨by decide, by decide⟩

/-- C3 amended: while the scan is inside an all-classes section, a line
whose trimmed form begins with `'['` but does not begin with the
all-classes header token is itself copied to the output, and scanning
resumes in pass-through mode from it; a boundary line beginning with the
all-classes header token instead starts a new all-classes section and is
dropped. -/
theorem c3_boundary_amended (l : String) (rest : List String)
    (ho : rustStartsWith (rustTrim l) "[" = true)
    (ht : rustStartsWith (rustTrim l) "[class-attrs-all]" = false) :
    filterLines true (l :: rest) = l :: filterLines false rest :=
  filterLines_cons_boundary l rest ht ho

/-- Witness for the amended C3 at the concrete boundary line
`"[other]"`. -/
theorem c3_boundary_amended_witness :
    rustStartsWith (rustTrim "[other]") "[" = true
      ∧ rustStartsWith (rustTrim "[other]") "[class-attrs-all]" = false
      ∧ filterLines true ["[other]", "x=1"] = "[other]" :: filterLines false ["x=1"] :=
  ⟨by decide, by decide, c3_boundary_amended "[other]" ["x=1"] (by decide) (by decide)⟩

/-- C4: the concrete scenario from the specification: filtering the
document `"[class-attrs-all]\nthreshold=0.3\n[other]\nx=1\n"` with target
class id 2 produces exactly the stated output document. -/
theorem c4_scenario :
    new_config "[class-attrs-all]\nthreshold=0.3\n[other]\nx=1\n" 2
      = "[other]\nx=1\n\n[class-attrs-2]\npre-cluster-threshold=0.25\n\n[class-attrs-all]\npre-cluster-threshold=1.0\n" := by
  decide

/-- C5 counterexample: the line `"[class-attrs-all]x"` does not trim to
exactly the header token, yet it is treated as an all-classes header: it is
discarded and the removal flag is set (so the following key=value line is
also removed).  Recognition is therefore not an exact-equality match. -/
theorem c5_counterexample :
    rustTrim "[class-attrs-all]x" ≠ "[class-attrs-all]"
      ∧ filterLines false ["[class-attrs-all]x", "k=1"] = [] :=
  ⟨by decide, by decide⟩

/-- C5 amended: a line is recognized as an all-classes header (discarded,
with the removal flag set) if and only if its trimmed form BEGINS WITH the
token `"[class-attrs-all]"` — a case-sensitive prefix match rather than an
exact equality; every line whose trimmed form does not begin with the token
is copied when scanning in pass-through mode. -/
theorem c5_header_match_amended (l : String) (rest : List String) :
    filterLines false (l :: rest)
      = if rustStartsWith (rustTrim l) "[class-attrs-all]" then filterLines true rest
        else l :: filterLines false rest := by
  cases hb : rustStartsWith (rustTrim l) "[class-attrs-all]" with
  | true => simp [hb, filterLines_cons_trigger false l rest hb]
  | false => simp [hb, filterLines_cons_keep l rest hb]

/-! ## The effectful wrapper

`create_filtered_config` in the source performs three fallible operations:
`fs::read_to_string(base_config)?`, `fs::File::create(temp_config_path)?`
(which truncates any existing file at the fixed path), and
`file.write_all(...)?` (which on failure may have written any prefix of the
buffer).  The model makes each failure mode an explicit parameter and
threads the content of the fixed output path (`none` = no file) as state:
* `baseRead`: `some content` if the base file reads successfully, `none`
  for a read error;
* `createOk`: whether `File::create` succeeds (on success the path holds
  the empty file before any write);
* `writeFail`: `none` if `write_all` writes the whole buffer, `some k` if
  it fails after writing only the first `k` bytes.
The result pairs the returned value (`Except.error ()` standing for the
propagated `std::io::Error`) with the final content of the fixed path. -/
def create_filtered_config (baseRead : Option String) (target_class_id : Int)
    (createOk : Bool) (writeFail : Option Nat) (fs0 : Option String) :
    Except Unit String × Option String :=
  match baseRead with
  | none => (Except.error (), fs0)
  | some content =>
    if createOk then
      let full := new_config content target_class_id
      match writeFail with
      | none => (Except.ok temp_config_path, some full)
      | some k => (Except.error (), some (String.mk (full.data.take k)))
    else (Except.error (), fs0)

/-- C7 counterexample: with a readable base file, a successful create and a
write that fails before any byte is written, the call fails AND an empty
file has replaced the previous content of the output path — a truncated
file is left behind on failure, so the all-or-nothing claim is false. -/
theorem c7_counterexample :
    create_filtered_config (some "x\n") 0 true (some 0) (some "old")
      = (Except.error (), some "") := by
  rfl

/-- C7 amended: the filter attempts no retry and no recovery; a read or
create failure leaves the output path untouched, but once `File::create`
has succeeded the path holds exactly the prefix written before any failure
(possibly empty) — i.e. on failure a partial, truncated, or empty file can
be left at the output path; only on success does the path hold the
complete output document. -/
theorem c7_all_or_nothing_amended (baseRead : Option String)
    (target_class_id : Int) (createOk : Bool) (writeFail : Option Nat)
    (fs0 : Option String) :
    (baseRead = none →
      create_filtered_config baseRead target_class_id createOk writeFail fs0
        = (Except.error (), fs0))
    ∧ (∀ content, baseRead = some content → createOk = false →
      create_filtered_config baseRead target_class_id createOk writeFail fs0
        = (Except.error (), fs0))
    ∧ (∀ content k, baseRead = some content → createOk = true →
      writeFail = some k →
      create_filtered_config baseRead target_class_id createOk writeFail fs0
        = (Except.error (),
           some (String.mk ((new_config content target_class_id).data.take k))))
    ∧ (∀ content, baseRead = some content → createOk = true → writeFail = none →
      create_filtered_config baseRead target_class_id createOk writeFail fs0
        = (Except.ok temp_config_path, some (new_config content target_class_id))) := by
  refine ⟨?_, ?_, ?_, ?_⟩
  · intro h; rw [h]; rfl
  · intro content h hc; rw [h, hc]; rfl
  · intro content k h hc hw; rw [h, hc, hw]; rfl
  · intro content h hc hw; rw [h, hc, hw]; rfl

/-- Witness for the amended C7: concrete instances of all four cases. -/
theorem c7_all_or_nothing_amended_witness :
    create_filtered_config none 5 true none (some "z") = (Except.error (), some "z")
      ∧ create_filtered_config (some "a\n") 5 false none (some "z")
          = (Except.error (), some "z")
      ∧ create_filtered_config (some "a\n") 5 true (some 2) (some "z")
          = (Except.error (), some (String.mk ((new_config "a\n" 5).data.take 2)))
      ∧ create_filtered_config (some "a\n") 5 true none (some "z")
          = (Except.ok temp_config_path, some (new_config "a\n" 5)) :=
  ⟨(c7_all_or_nothing_amended none 5 true none (some "z")).1 rfl,
   (c7_all_or_nothing_amended (some "a\n") 5 false none (some "z")).2.1 "a\n" rfl rfl,
   (c7_all_or_nothing_amended (some "a\n") 5 true (some 2) (some "z")).2.2.1 "a\n" 2 rfl rfl rfl,
   (c7_all_or_nothing_amended (some "a\n") 5 true none (some "z")).2.2.2 "a\n" rfl rfl rfl⟩

/-- C8: the call returns an error exactly when the base read fails, the
create of the output file fails, or the write fails (the model's only
error stands for the propagated I/O-kind error); and any successful call
returns the fixed path `"/tmp/config_infer_filtered.txt"`, the same
constant for every invocation, independent of the base content and the
target class id. -/
theorem c8_error_iff_and_fixed_path (baseRead : Option String)
    (target_class_id : Int) (createOk : Bool) (writeFail : Option Nat)
    (fs0 : Option String) :
    ((create_filtered_config baseRead target_class_id createOk writeFail fs0).1
        = Except.error ()
      ↔ (baseRead = none ∨ createOk = false ∨ writeFail ≠ none))
    ∧ (∀ p, (create_filtered_config baseRead target_class_id createOk writeFail fs0).1
        = Except.ok p → p = temp_config_path) := by
  cases baseRead with
  | none =>
    constructor
    · constructor
      · intro _; exact Or.inl rfl
      · intro _; rfl
    · intro p hp; exact absurd hp (by simp [create_filtered_config])
  | some content =>
    cases createOk with
    | false =>
      constructor
      · constructor
        · intro _; exact Or.inr (Or.inl rfl)
        · intro _; rfl
      · intro p hp; exact absurd hp (by simp [create_filtered_config])
    | true =>
      cases writeFail with
      | none =>
        constructor
        · constructor
          · intro h; exact absurd h (by simp [create_filtered_config])
          · intro h
            rcases h with h | h | h
            · exact absurd h (by simp)
            · exact absurd h (by simp)
            · exact absurd rfl h
        · intro p hp
          have h2 : Except.ok (ε := Unit) temp_config_path = Except.ok p := by
            rw [← hp]; rfl
          exact (Except.ok.inj h2).symm
      | some k =>
        constructor
        · constructor
          · intro _; exact Or.inr (Or.inr (by simp))
          · intro _; rfl
        · intro p hp; exact absurd hp (by simp [create_filtered_config])

/-- Witness for C8: a failing call (read error) satisfies the
error-characterization, and a successful call returns the fixed path. -/
theorem c8_error_iff_and_fixed_path_witness :
    (create_filtered_config none 0 true none none).1 = Except.error () :=
  ((c8_error_iff_and_fixed_path none 0 true none none).1).mpr (Or.inl rfl)

/-! ## The per-class threshold as seen by the consuming engine -/

/-- Modelled from the spec: the consuming inference engine (not part of
this repository) reads the configuration as sections of `key=value` lines,
a later section with the same header overriding an earlier one.  One scan
step: an exact header line opens the tracked section (resetting its
recorded value), any other section-opening line closes it, and inside the
tracked section a `key=` line records the text after `key=`. -/
def sectionStep (header key : String) (st : Bool × Option String) (l : String) :
    Bool × Option String :=
  if l = header then (true, none)
  else if rustStartsWith (rustTrim l) "[" then (false, st.2)
  else if st.1 && rustStartsWith l (key ++ "=") then
    (true, some (String.mk (l.data.drop (key ++ "=").length)))
  else st

/-- Modelled from the spec: the value the consuming engine associates with
`key` in the last section of the document carrying the given header. -/
def lastSectionValue (doc : List String) (header key : String) : Option String :=
  (doc.foldl (sectionStep header key) (false, none)).2

/-- Modelled from the spec: the pre-cluster threshold of the active
(effective) per-class section for a target class id in a document. -/
def activeClassThreshold (s : String) (id : Int) : Option String :=
  lastSectionValue (rustLines s) (classHeader id) "pre-cluster-threshold"

theorem sectionStep_header (header key : String) (st : Bool × Option String) :
    sectionStep header key st header = (true, none) := by
  rw [sectionStep, if_pos rfl]

theorem sectionStep_open (header key : String) (st : Bool × Option String)
    (l : String) (h1 : l ≠ header) (h2 : rustStartsWith (rustTrim l) "[" = true) :
    sectionStep header key st l = (false, st.2) := by
  rw [sectionStep, if_neg h1, if_pos h2]

theorem sectionStep_key (header key : String) (st : Bool × Option String)
    (l : String) (h1 : l ≠ header) (h2 : rustStartsWith (rustTrim l) "[" = false)
    (h3 : st.1 = true) (h4 : rustStartsWith l (key ++ "=") = true) :
    sectionStep header key st l
      = (true, some (String.mk (l.data.drop (key ++ "=").length))) := by
  rw [sectionStep, if_neg h1, if_neg (by rw [h2]; exact Bool.false_ne_true),
    if_pos (by rw [h3, h4]; rfl)]

theorem sectionStep_skip_key (header key : String) (st : Bool × Option String)
    (l : String) (h1 : l ≠ header) (h2 : rustStartsWith (rustTrim l) "[" = false)
    (h4 : rustStartsWith l (key ++ "=") = false) :
    sectionStep header key st l = st := by
  rw [sectionStep, if_neg h1, if_neg (by rw [h2]; exact Bool.false_ne_true),
    if_neg (by rw [h4, Bool.and_false]; exact Bool.false_ne_true)]

theorem sectionStep_skip_out (header key : String) (st : Bool × Option String)
    (l : String) (h1 : l ≠ header) (h2 : rustStartsWith (rustTrim l) "[" = false)
    (h3 : st.1 = false) :
    sectionStep header key st l = st := by
  rw [sectionStep, if_neg h1, if_neg (by rw [h2]; exact Bool.false_ne_true),
    if_neg (by rw [h3, Bool.false_and]; exact Bool.false_ne_true)]

theorem ne_classHeader_of_head (n : Int) (s : String)
    (hs : s.data.head? ≠ some '[') : s ≠ classHeader n := by
  intro he
  apply hs
  have hd := congrArg String.data he
  rw [classHeader_data] at hd
  rw [hd]
  rfl

/-- Folding the engine's scan over the six appended lines yields the
permissive per-class threshold value `"0.25"`, whatever state the scan of
the preceding document part ended in. -/
theorem foldl_tail_eval (id : Int) (st : Bool × Option String) :
    List.foldl (sectionStep (classHeader id) "pre-cluster-threshold") st
      ["", classHeader id, "pre-cluster-threshold=0.25", "",
       "[class-attrs-all]", "pre-cluster-threshold=1.0"]
      = (false, some "0.25") := by
  have hv : (String.mk ("pre-cluster-threshold=0.25".data.drop
      ("pre-cluster-threshold" ++ "=").length)) = "0.25" := by decide
  rw [List.foldl_cons,
    sectionStep_skip_key _ _ st "" (ne_classHeader_of_head id "" (by decide))
      (by decide) (by decide),
    List.foldl_cons, sectionStep_header,
    List.foldl_cons,
    sectionStep_key _ _ _ "pre-cluster-threshold=0.25"
      (ne_classHeader_of_head id _ (by decide)) (by decide) rfl (by decide),
    hv,
    List.foldl_cons,
    sectionStep_skip_key _ _ _ "" (ne_classHeader_of_head id "" (by decide))
      (by decide) (by decide),
    List.foldl_cons,
    sectionStep_open _ _ _ "[class-attrs-all]"
      (fun he => classHeader_ne_all id he.symm) (by decide),
    List.foldl_cons,
    sectionStep_skip_out _ _ _ "pre-cluster-threshold=1.0"
      (ne_classHeader_of_head id _ (by decide)) (by decide) rfl,
    List.foldl_nil]

/-- In every filter output, the engine's active per-class threshold for the
target id is the appended permissive value `"0.25"`. -/
theorem activeClassThreshold_new_config (c : String) (id : Int) :
    activeClassThreshold (new_config c id) id = some "0.25" := by
  rw [activeClassThreshold, lastSectionValue, rustLines_new_config,
    List.foldl_append, foldl_tail_eval]

/-- C6: filtering an already-filtered document again with the same target
class id leaves the active (non-suppressed) per-class threshold for that
id unchanged — both documents give the engine the same value, namely the
permissive `"0.25"`; re-filtering does not compound thresholds. -/
theorem c6_idempotent_threshold (c : String) (id : Int) :
    activeClassThreshold (new_config (new_config c id) id) id
        = activeClassThreshold (new_config c id) id
      ∧ activeClassThreshold (new_config c id) id = some "0.25" := by
  refine ⟨?_, activeClassThreshold_new_config c id⟩
  rw [activeClassThreshold_new_config, activeClassThreshold_new_config]

/-- C9: in every output document, the per-class section for the target id
(its header followed by its permissive threshold line) appears strictly
before the restrictive all-classes section: the lines of the output are
some prefix containing no all-classes header at all, then the per-class
section, then the all-classes section. -/
theorem c9_threshold_ordering (c : String) (id : Int) :
    ∃ ks, rustLines (new_config c id)
        = ks ++ ["", classHeader id, "pre-cluster-threshold=0.25", "",
                 "[class-attrs-all]", "pre-cluster-threshold=1.0"]
      ∧ ∀ l ∈ ks, l ≠ "[class-attrs-all]" := by
  refine ⟨(filterLines false (rustLines c)).map stripCRstr,
    rustLines_new_config c id, ?_⟩
  intro l hl he
  rcases List.mem_map.mp hl with ⟨x, hx, hxe⟩
  have hxt := (mem_filterLines (rustLines c) false x hx).2
  have hdata : stripCR x.data = "[class-attrs-all]".data := by
    rw [← he, ← hxe]
    rfl
  by_cases hr : x.data.getLast? = some '\r'
  · have hne : x.data ≠ [] := by
      intro h0
      rw [h0] at hr
      simp at hr
    have hdl : x.data.dropLast = "[class-attrs-all]".data := by
      rw [stripCR, if_pos hr] at hdata
      exact hdata
    have hlast : x.data.getLast hne = '\r' := by
      have h2 := List.getLast?_eq_getLast x.data hne
      rw [h2] at hr
      exact Option.some.inj hr
    have hx2 : x = "[class-attrs-all]\r" := by
      apply String.ext
      have h3 := (List.dropLast_append_getLast hne).symm
      rw [hlast, hdl] at h3
      exact h3
    rw [hx2] at hxt
    exact absurd hxt (by decide)
  · have hx2 : x = "[class-attrs-all]" := by
      apply String.ext
      rw [stripCR, if_neg hr] at hdata
      exact hdata
    rw [hx2] at hxt
    exact absurd hxt (by decide)

/-! ## Carriage returns and line terminators in the output -/

/-- A character list in which every carriage return is immediately followed
by a line feed (i.e. `'\r'` occurs only inside CRLF line endings). -/
def crlfOnly : List Char → Bool
  | [] => true
  | c :: rest => (c != '\r' || rest.head? == some '\n') && crlfOnly rest

theorem crlfOnly_cons (c : Char) (rest : List Char) :
    crlfOnly (c :: rest)
      = ((c != '\r' || rest.head? == some '\n') && crlfOnly rest) := rfl

theorem crlfOnly_tail (c : Char) (rest : List Char)
    (h : crlfOnly (c :: rest) = true) : crlfOnly rest = true := by
  rw [crlfOnly_cons, Bool.and_eq_true] at h
  exact h.2

theorem crlfOnly_cr (rest : List Char) (h : crlfOnly ('\r' :: rest) = true) :
    rest.head? = some '\n' := by
  rw [crlfOnly_cons, Bool.and_eq_true] at h
  have h1 := h.1
  simpa using h1

theorem crlf_linesData_no_cr (dl : List Char) :
    crlfOnly dl = true → ∀ p ∈ linesData dl, '\r' ∉ p := by
  induction dl using linesData.induct with
  | case1 => intro _ p hp; simp [linesData] at hp
  | case2 cs ih =>
    intro hc p hp
    rw [linesData_newline] at hp
    rcases List.mem_cons.mp hp with h | h
    · subst h; simp
    · exact ih (crlfOnly_tail _ _ hc) p h
  | case3 cs ih =>
    intro hc p hp
    rw [linesData_crlf] at hp
    have hc2 : crlfOnly cs = true := crlfOnly_tail _ _ (crlfOnly_tail _ _ hc)
    rcases List.mem_cons.mp hp with h | h
    · subst h; simp
    · exact ih hc2 p h
  | case4 c cs h1 h2 ih =>
    intro hc p hp
    have hcn : c ≠ '\n' := fun he => h1 he
    have hccr : c ≠ '\r' := by
      intro he
      subst he
      have hh := crlfOnly_cr cs hc
      cases cs with
      | nil => simp at hh
      | cons d cs' =>
        have hd : d = '\n' := by simpa using hh
        exact h2 cs' rfl (by rw [hd])
    have hcr2 : c = '\r' → cs.head? ≠ some '\n' := fun he => absurd he hccr
    rw [linesData_cons_eq_consCell c cs hcn hcr2] at hp
    cases hls : linesData cs with
    | nil =>
      rw [hls] at hp
      simp only [consCell, List.mem_singleton] at hp
      subst hp
      intro hm
      rw [List.mem_singleton] at hm
      exact hccr hm.symm
    | cons p0 ps =>
      rw [hls] at hp
      simp only [consCell, List.mem_cons] at hp
      have ihc := ih (crlfOnly_tail c cs hc)
      rcases hp with h | h
      · subst h
        intro hm
        rcases List.mem_cons.mp hm with h' | h'
        · exact hccr h'.symm
        · exact (ihc p0 (hls ▸ List.mem_cons_self p0 ps)) h'
      · exact ihc p (hls ▸ List.mem_cons_of_mem p0 h)

theorem mem_rustLines_no_cr (s : String) (hc : crlfOnly s.data = true) :
    ∀ l ∈ rustLines s, '\r' ∉ l.data := by
  intro l hl
  rcases List.mem_map.mp hl with ⟨p, hp, he⟩
  rw [← he]
  exact crlf_linesData_no_cr s.data hc p hp

/-- C10 counterexample: the input `"a\rb\n"` (an interior carriage return,
not part of a CRLF ending) produces an output that still contains `'\r'`:
the copied portion is not carriage-return-free for every input. -/
theorem c10_counterexample : '\r' ∈ (new_config "a\rb\n" 0).data := by
  decide

/-- C10 amended: every output document ends with `'\n'` (each copied line
is written with a single `'\n'` terminator and the appended text ends with
one), and whenever every carriage return of the input lies inside a CRLF
line ending — in particular for pure CRLF or pure LF inputs — the output
contains no `'\r'` at all: CRLF endings are normalized to `'\n'`.  Interior
carriage returns, however, are copied through, so normalization is
line-ending-only, not unconditional. -/
theorem c10_line_endings_amended (c : String) (id : Int) :
    (new_config c id).data.getLast? = some '\n'
      ∧ (crlfOnly c.data = true → '\r' ∉ (new_config c id).data) := by
  constructor
  · have h2 : (appendedSuffix id).data.getLast? = some '\n' := by
      rw [appendedSuffix_data]
      show (('\n' :: (classHeader id).data) ++
        ('\n' :: ("pre-cluster-threshold=0.25".data
          ++ ('\n' :: ('\n' :: ("[class-attrs-all]".data
          ++ ('\n' :: ("pre-cluster-threshold=1.0".data ++ ['\n'])))))))).getLast?
        = some '\n'
      rw [List.getLast?_append]
      rfl
    rw [new_config, String.data_append, List.getLast?_append, h2]
    rfl
  · intro hc
    rw [new_config, String.data_append]
    intro hm
    rcases List.mem_append.mp hm with h | h
    · rw [buildBody_data] at h
      rcases List.mem_flatten.mp h with ⟨piece, hpc, hcm⟩
      rcases List.mem_map.mp hpc with ⟨l, hlk, he⟩
      rw [← he] at hcm
      rcases List.mem_append.mp hcm with h2 | h2
      · exact mem_rustLines_no_cr c hc l
          (mem_filterLines (rustLines c) false l hlk).1 h2
      · rw [List.mem_singleton] at h2
        exact absurd h2 (by decide)
    · rw [appendedSuffix_data] at h
      rcases List.mem_cons.mp h with h2 | h2
      · exact absurd h2 (by decide)
      · rcases List.mem_append.mp h2 with h3 | h3
        · exact classHeader_no_cr id h3
        · exact absurd h3 (by decide)

/-- Witness for the amended C10 at the CRLF input `"a\r\nb"` with target
class id 7. -/
theorem c10_line_endings_amended_witness :
    (new_config "a\r\nb" 7).data.getLast? = some '\n'
      ∧ crlfOnly "a\r\nb".data = true
      ∧ '\r' ∉ (new_config "a\r\nb" 7).data :=
  ⟨(c10_line_endings_amended "a\r\nb" 7).1, by decide,
   (c10_line_endings_amended "a\r\nb" 7).2 (by decide)⟩
